import Mathlib

/-
Verification development for the swagger-express-validator middleware
(src/index.js).  The JavaScript source is shallowly embedded: JSON values
become an inductive type, JavaScript object field access becomes
association-list lookup, the mutable contract document becomes explicit
state passing, and code that can throw a TypeError returns Except.
External collaborators declared out of scope by the specification (the
path-to-regexp compiler, the Ajv JSON-Schema engine, JSON.parse and
JSON.stringify of the host runtime) are parameters of the embedding.
-/

namespace SwaggerValidator

/-- JSON values: the data both the contract document and request/response
bodies are made of.  Objects keep their key insertion order, as JavaScript
objects do.  A document parsed from JSON text is a tree (no internal
sharing) and never repeats a key inside one object; the embedding relies
on both facts where noted. -/
inductive Json where
  | null : Json
  | bool : Bool → Json
  | num : Int → Json
  | str : String → Json
  | arr : List Json → Json
  | obj : List (String × Json) → Json

/-- JavaScript truthiness of a JSON value (`if (x)`): null, false, 0 and
the empty string are falsy; every array and object is truthy. -/
def truthy : Json → Bool
  | .null => false
  | .bool b => b
  | .num n => n != 0
  | .str s => s != ""
  | .arr _ => true
  | .obj _ => true

def Json.isNull : Json → Bool
  | .null => true
  | _ => false

def Json.isObj : Json → Bool
  | .obj _ => true
  | _ => false

/-- First-occurrence lookup in an association list, the semantics of
JavaScript property reads on objects without duplicate keys. -/
def lookupKvs : List (String × Json) → String → Option Json
  | [], _ => none
  | (k, v) :: rest, key => if k = key then some v else lookupKvs rest key

/-- JavaScript property read `j[key]`: `none` models `undefined`.  Reads on
primitives yield `undefined` (built-ins such as `.length` are not modelled;
no contract document stores schemas behind them). -/
def jsMember (j : Json) (key : String) : Option Json :=
  match j with
  | .obj kvs => lookupKvs kvs key
  | _ => none

/-- Chained property read `j[k1][k2]...`, `none` as soon as a step is
absent or the base is not an object. -/
def getAt : Json → List String → Option Json
  | j, [] => some j
  | j, k :: ks =>
    match jsMember j k with
    | some v => getAt v ks
    | none => none

/-- Replace the value stored under the first occurrence of a key. -/
def setKeyFirst : List (String × Json) → String → Json → List (String × Json)
  | [], _, _ => []
  | (k, v) :: rest, key, newV =>
    if k = key then (k, newV) :: rest else (k, v) :: setKeyFirst rest key newV

/-- Apply `f` to the value sitting at a key path, leaving everything else
unchanged; the identity when the path is absent.  This is the tree-model
counterpart of a JavaScript in-place mutation of a nested object. -/
def updAt : Json → List String → (Json → Json) → Json
  | j, [], f => f j
  | .obj kvs, k :: ks, f =>
    match lookupKvs kvs k with
    | some v => Json.obj (setKeyFirst kvs k (updAt v ks f))
    | none => Json.obj kvs
  | j, _ :: _, _ => j

/-- Model of `require('url').parse(reqUrl).pathname` for the path-shaped
URLs Express hands to middleware (`req.originalUrl`): everything before the
first `?` (query string) or `#` (fragment). -/
def pathname (url : String) : String :=
  String.mk (url.data.takeWhile (fun c => !(c = '?' || c = '#')))

/-- One compiled entry of the path registry (src/index.js:12-18).  The
`matcher` field holds the compiled regular expression as an abstract
predicate on the path component; path-to-regexp is an out-of-scope external
collaborator.  `definition`/`pathDef` of the source both alias the contract
document at `paths[path]`, so the embedding stores only the key and reads
the document at use sites. -/
structure PathObject where
  path : String
  matcher : String → Bool

/-- Template preprocessing of src/index.js:15:
`path.replace(/\x7b/g, ':').replace(/\x7d/g, '')` turns `/users/{id}` into
the Express-style `/users/:id` before the external compiler runs. -/
def expressTemplate (p : String) : String :=
  (p.replace "\x7b" ":").replace "\x7d" ""

/-- buildPathObjects (src/index.js:12-18): one registry entry per key of
`schema.paths`, in insertion (registration) order, compiled by the external
`compile` (path-to-regexp). -/
def buildPathObjects (compile : String → String → Bool) (doc : Json) : List PathObject :=
  match jsMember doc "paths" with
  | some (Json.obj kvs) => kvs.map (fun kv => ⟨kv.1, compile (expressTemplate kv.1)⟩)
  | _ => []

/-- The path template selected by matchUrlWithSchema (src/index.js:20-28):
filter the registry by matcher acceptance of the stripped path and keep the
first entry. -/
def matchUrlPath (reg : List PathObject) (reqUrl : String) : Option String :=
  match reg.filter (fun o => o.matcher (pathname reqUrl)) with
  | [] => none
  | o :: _ => some o.path

/-- matchUrlWithSchema (src/index.js:20-28): the `definition` field of the
first matching entry.  In the source that field aliases
`schema.paths[path]`, so in the tree model it is read from the current
document. -/
def matchUrlWithSchema (reg : List PathObject) (doc : Json) (reqUrl : String) : Option Json :=
  match matchUrlPath reg reqUrl with
  | none => none
  | some p => getAt doc ["paths", p]

/-- Truthiness of the `x-nullable` marker of one property schema
(src/index.js:33).  Reading the marker off a primitive yields `undefined`
(falsy); a `null` property value would make the JavaScript access throw,
but property schemas in a Swagger document are always objects. -/
def xNullableTruthy (v : Json) : Bool :=
  match v with
  | .obj kvs =>
    match lookupKvs kvs "x-nullable" with
    | some x => truthy x
    | none => false
  | _ => false

/-- The rewritten property schema of src/index.js:34-39: a `oneOf` over the
original schema and an explicit null type. -/
def nullableWrap (v : Json) : Json :=
  Json.obj [("oneOf", Json.arr [v, Json.obj [("type", Json.str "null")]])]

/-- The per-property pass of decorateWithNullable (src/index.js:32-41):
every top-level property whose `x-nullable` is truthy is wrapped, the rest
stay as they are. -/
def decProps : List (String × Json) → List (String × Json)
  | [] => []
  | (k, v) :: rest =>
    (k, if xNullableTruthy v then nullableWrap v else v) :: decProps rest

/-- decorateWithNullable (src/index.js:30-44).  The guard
`if (schema && schema.properties)` skips falsy schemas and falsy
`properties`; a truthy non-object `properties` also leaves the schema
unchanged in JavaScript (no key carries a truthy `x-nullable` marker), and
cannot occur in a Swagger document, so the embedding folds those cases into
the identity branch. -/
def decorateWithNullable (schema : Json) : Json :=
  match schema with
  | .obj kvs =>
    match lookupKvs kvs "properties" with
    | some (Json.obj props) =>
      Json.obj (setKeyFirst kvs "properties" (Json.obj (decProps props)))
    | _ => Json.obj kvs
  | s => s

/-- Recognized middleware options (src/index.js:240-246); the two callback
options are modelled by whether they are configured. -/
structure Options where
  validateRequest : Bool
  validateResponse : Bool
  allowNullable : Bool
  requestValidationFn : Bool
  responseValidationFn : Bool

/-- JavaScript values travelling through the response write path.  Buffers
are modelled by their decoded text (byte sequences as text), primitive
strings and boxed String objects are kept apart because
`data instanceof String` is false for primitives (src/index.js:157), and
`undefV` models `undefined`. -/
inductive JsVal where
  | buf : String → JsVal
  | str : String → JsVal
  | strObj : String → JsVal
  | jval : Json → JsVal
  | undefV : JsVal

/-- JavaScript truthiness over `JsVal`: a Buffer or String object is an
object hence truthy even when empty. -/
def truthyV : JsVal → Bool
  | .buf _ => true
  | .str s => s != ""
  | .strObj _ => true
  | .jval j => truthy j
  | .undefV => false

/-- The inbound request as the middleware sees it: method, original URL and
the already-parsed body. -/
structure Request where
  method : String
  originalUrl : String
  body : JsVal

/-- The slice of the response object the validator reads: its status code,
with 0 modelling an unset (falsy) `res.statusCode`. -/
structure ResState where
  statusCode : Nat

/-- `res.statusCode || 200` (src/index.js:52). -/
def statusOr200 (res : ResState) : Nat :=
  if res.statusCode = 0 then 200 else res.statusCode

/-- The external collaborators the middleware calls into: the Ajv engine
(compile + run collapsed into `validate`, its error list into `errors`) and
the host runtime's JSON.parse / JSON.stringify. -/
structure Ext where
  validate : Json → JsVal → Bool
  errors : Json → JsVal → List Json
  parse : String → Option Json
  stringify : Json → String

/-- Lowercasing of one ASCII character, as `String.prototype.toLowerCase`
acts on the characters appearing in an HTTP method name. -/
def lowerChar (c : Char) : Char :=
  if c.isUpper then Char.ofNat (c.toNat + 32) else c

/-- `req.method.toLowerCase()` (src/index.js:50 and 68); HTTP method names
are ASCII, so per-character lowercasing is the whole behavior. -/
def toLowerStr (s : String) : String :=
  String.mk (s.data.map lowerChar)

/-- The final decoration step shared by both resolvers
(src/index.js:58-60 and 77-79): `decorateWithNullable` runs only when
`allowNullable` is set, and maps null to null. -/
def applyNullable (opts : Options) (s : Option Json) : Option Json :=
  if opts.allowNullable then s.map decorateWithNullable else s

/-- resolveRequestModelSchema (src/index.js:64-81).  The method entry is
guarded (`if (pathObj[method])`), `parameters` must be a non-empty array,
and only the first parameter's `schema` is taken. -/
def resolveRequestModelSchema (opts : Options) (reg : List PathObject) (doc : Json)
    (req : Request) : Option Json :=
  let schema0 : Option Json :=
    match matchUrlWithSchema reg doc req.originalUrl with
    | none => none
    | some pathObj =>
      if truthy pathObj = false then none
      else
        match jsMember pathObj (toLowerStr req.method) with
        | none => none
        | some m =>
          if truthy m = false then none
          else
            match jsMember m "parameters" with
            | some (Json.arr (p :: _)) => jsMember p "schema"
            | _ => none
  applyNullable opts schema0

/-- State-passing embedding of resolveResponseModelSchema
(src/index.js:46-62).  The returned document reflects the in-place
mutation performed by the nullable decoration on the shared contract: the
resolved schema object is rewritten at its location.  The unguarded reads
`pathObj[method].responses` and `responseSchemas[code]` throw a TypeError
when their base is `undefined` or `null`; those paths return `Except.error`. -/
def resolveResponseModelSchemaSt (opts : Options) (reg : List PathObject) (doc : Json)
    (req : Request) (res : ResState) : Except String (Option Json × Json) :=
  match matchUrlPath reg req.originalUrl with
  | none => .ok (applyNullable opts none, doc)
  | some p =>
    match getAt doc ["paths", p] with
    | none => .ok (applyNullable opts none, doc)
    | some pathObj =>
      if truthy pathObj = false then .ok (applyNullable opts none, doc)
      else
        match jsMember pathObj (toLowerStr req.method) with
        | none => .error "TypeError: Cannot read property responses of undefined"
        | some m =>
          if m.isNull then .error "TypeError: Cannot read property responses of null"
          else
            match jsMember m "responses" with
            | none => .error "TypeError: Cannot read property of undefined"
            | some rs =>
              if rs.isNull then .error "TypeError: Cannot read property of null"
              else
                match jsMember rs (Nat.repr (statusOr200 res)) with
                | none => .ok (applyNullable opts none, doc)
                | some d =>
                  if truthy d = false then .ok (applyNullable opts none, doc)
                  else
                    match jsMember d "schema" with
                    | none => .ok (applyNullable opts none, doc)
                    | some s =>
                      if opts.allowNullable then
                        .ok (some (decorateWithNullable s),
                          updAt doc
                            ["paths", p, toLowerStr req.method, "responses",
                              Nat.repr (statusOr200 res), "schema"]
                            (fun _ => decorateWithNullable s))
                      else .ok (some s, doc)

/-- The schema returned to the caller by resolveResponseModelSchema,
dropping the document update of the state-passing embedding. -/
def resolveResponseModelSchema (opts : Options) (reg : List PathObject) (doc : Json)
    (req : Request) (res : ResState) : Except String (Option Json) :=
  (resolveResponseModelSchemaSt opts reg doc req res).map Prod.fst

/-- Observable effects of the request validation stage on one exchange:
whether the continuation ran, whether the configured callback ran, and the
status/body sent through `res.status`/`res.json`. -/
structure ReqEffects where
  nextCalled : Bool
  callbackInvoked : Bool
  status : Option Nat
  jsonBody : Option Json

/-- The error body built at src/index.js:107-109 (the message text reuses
the response-side wording verbatim, as the source does). -/
def validationErrBody (req : Request) : Json :=
  Json.obj [("message",
    Json.str ("Response schema validation failed for " ++ req.method ++ req.originalUrl))]

/-- validateRequest (src/index.js:83-118).  A falsy resolved schema
(`if (!requestSchema)`) skips validation; an invalid body either feeds the
configured callback and continues, or sends a 400 JSON error and never
calls the continuation. -/
def validateRequest (ext : Ext) (opts : Options) (reg : List PathObject) (doc : Json)
    (req : Request) : ReqEffects :=
  match resolveRequestModelSchema opts reg doc req with
  | none => ⟨true, false, none, none⟩
  | some s =>
    if truthy s = false then ⟨true, false, none, none⟩
    else if ext.validate s req.body then ⟨true, false, none, none⟩
    else if opts.requestValidationFn then ⟨true, true, none, none⟩
    else ⟨false, false, some 400, some (validationErrBody req)⟩

/-- Contents of a Buffer, `none` for anything else. -/
def bufContents : JsVal → Option String
  | .buf s => some s
  | _ => none

/-- Buffer.concat: concatenates Buffers, throwing a TypeError as soon as an
element of the list is not a Buffer. -/
def concatBuffers : List JsVal → Except String String
  | [] => .ok ""
  | v :: rest =>
    match bufContents v with
    | none => .error "TypeError: list argument must be an Array of Buffers"
    | some s =>
      match concatBuffers rest with
      | .ok t => .ok (s ++ t)
      | .error e => .error e

/-- The value assembled by the end hook (src/index.js:153-165): a truthy
Buffer or String object is appended to the captured chunks and the whole
list concatenated; any other truthy `data` REPLACES the captured chunks;
falsy `data` falls back to the captured chunks alone, or leaves `val`
undefined when nothing was captured. -/
def computeVal (writtenData : List JsVal) (data : JsVal) : Except String JsVal :=
  if truthyV data then
    match data with
    | .buf b => (concatBuffers (writtenData ++ [.buf b])).map JsVal.buf
    | .strObj s => (concatBuffers (writtenData ++ [.buf s])).map JsVal.buf
    | d => .ok d
  else if writtenData.isEmpty then .ok .undefV
  else (concatBuffers writtenData).map JsVal.buf

/-- The assembled value after the Buffer-to-text conversion of
src/index.js:174-176 (`val.toString(encoding)`, bytes modelled as text). -/
def reassembled (writtenData : List JsVal) (data : JsVal) : Except String JsVal :=
  (computeVal writtenData data).map (fun v =>
    match v with
    | .buf b => .str b
    | v => v)

/-- sendData (src/index.js:120-126): a value that is neither a Buffer nor a
lodash string is serialized with JSON.stringify before `res.end`;
`JSON.stringify(undefined)` is `undefined`. -/
def sendDataVal (ext : Ext) (v : JsVal) : JsVal :=
  match v with
  | .buf _ => v
  | .str _ => v
  | .strObj _ => v
  | .jval j => .str (ext.stringify j)
  | .undefV => .undefV

/-- Externally visible actions of the intercepting end hook, in order:
restoring the hooked `res.write`/`res.end`, emitting through the original
`res.end`, invoking the response callback, invoking the continuation with
an error, or throwing.  The `Bool` of `raised` is the `failedValidation`
marker set on a JSON decode fault (src/index.js:182). -/
inductive REvent where
  | restoreHooks : REvent
  | sendData : JsVal → REvent
  | callback : JsVal → List Json → REvent
  | nextErr : String → REvent
  | raised : Bool → String → REvent

/-- Message attached to the decode fault at src/index.js:183. -/
def decodeFaultMsg : String := "Value expected to be an array/object but is not"

/-- Message of the response validation error (src/index.js:203). -/
def responseErrMsg (req : Request) : String :=
  "Response schema validation failed for " ++ req.method ++ req.originalUrl

/-- Tail of the end hook after decoding (src/index.js:189-211): resolve the
response schema (which may throw, see resolveResponseModelSchemaSt), skip
validation for a falsy schema, and on failure either run the configured
callback and still send, or hand an error to the continuation without
sending. -/
def afterDecode (ext : Ext) (opts : Options) (reg : List PathObject) (doc : Json)
    (req : Request) (res : ResState) (val : JsVal) : List REvent :=
  match resolveResponseModelSchema opts reg doc req res with
  | .error e => [.raised false e]
  | .ok none => [.sendData (sendDataVal ext val)]
  | .ok (some schema) =>
    if truthy schema = false then [.sendData (sendDataVal ext val)]
    else if ext.validate schema val then [.sendData (sendDataVal ext val)]
    else if opts.responseValidationFn then
      [.callback val (ext.errors schema val), .sendData (sendDataVal ext val)]
    else [.nextErr (responseErrMsg req)]

/-- The intercepting `res.end` installed by validateResponse
(src/index.js:152-212), as the ordered list of its visible actions.  The
assembly of `val` (and a Buffer.concat TypeError) happens before the
original hooks are restored; a string value is then JSON-parsed, a parse
failure rethrown with the `failedValidation` marker, and the rest handled
by `afterDecode`.  The encoding argument is carried but, with bytes
modelled as text, does not alter the decoded value. -/
def resEnd (ext : Ext) (opts : Options) (reg : List PathObject) (doc : Json)
    (req : Request) (res : ResState) (writtenData : List JsVal) (data : JsVal)
    (_encoding : String) : List REvent :=
  match reassembled writtenData data with
  | .error e => [.raised false e]
  | .ok val =>
    .restoreHooks ::
      match val with
      | .str s =>
        (match ext.parse s with
         | none => [.raised true decodeFaultMsg]
         | some j => afterDecode ext opts reg doc req res (.jval j))
      | .strObj s =>
        (match ext.parse s with
         | none => [.raised true decodeFaultMsg]
         | some j => afterDecode ext opts reg doc req res (.jval j))
      | v => afterDecode ext opts reg doc req res v

/-- Observable effects of running the combined middleware entry
(src/index.js:218-227) up to the point where control passes downstream:
the request-stage effects (when that stage is enabled), how many times the
continuation was invoked, and whether the response interception hooks were
installed. -/
structure MwEffects where
  reqEffects : Option ReqEffects
  nextCount : Nat
  hooksInstalled : Bool

/-- validate (src/index.js:218-227): the request stage runs when enabled,
then the response stage unconditionally installs its hooks over
`res.write`/`res.end` and invokes the continuation (src/index.js:214),
regardless of what the request stage did. -/
def validate (ext : Ext) (opts : Options) (reg : List PathObject) (doc : Json)
    (req : Request) : MwEffects :=
  let r : Option ReqEffects :=
    if opts.validateRequest then some (validateRequest ext opts reg doc req) else none
  { reqEffects := r
    nextCount :=
      (match r with
       | some e => if e.nextCalled then 1 else 0
       | none => 0) +
      (if opts.validateResponse then 1 else 0)
    hooksInstalled := opts.validateResponse }

/-- Concatenation of a list of text chunks, in order. -/
def joinStr : List String → String
  | [] => ""
  | s :: rest => s ++ joinStr rest

/-- Instance type check of the JSON-Schema `type` keyword. -/
def typeMatches (t : String) (v : Json) : Bool :=
  if t = "null" then v.isNull
  else if t = "string" then (match v with | .str _ => true | _ => false)
  else if t = "integer" then (match v with | .num _ => true | _ => false)
  else if t = "number" then (match v with | .num _ => true | _ => false)
  else if t = "boolean" then (match v with | .bool _ => true | _ => false)
  else if t = "object" then (match v with | .obj _ => true | _ => false)
  else if t = "array" then (match v with | .arr _ => true | _ => false)
  else true

/-- One schema keyword applied to an instance, recursion through `rec`:
`oneOf` demands exactly one accepting branch, `type` checks the instance
type, `properties` constrains the present fields of an object, `required`
demands the listed fields; unknown keywords constrain nothing. -/
def accKeywordF (rec : Json → Json → Bool) (k : String) (spec : Json) (v : Json) : Bool :=
  if k = "oneOf" then
    match spec with
    | .arr branches => branches.countP (fun b => rec b v) == 1
    | _ => true
  else if k = "type" then
    match spec with
    | .str t => typeMatches t v
    | _ => true
  else if k = "properties" then
    match spec with
    | .obj props =>
      props.all (fun kv =>
        match v with
        | .obj fields =>
          match lookupKvs fields kv.1 with
          | some fv => rec kv.2 fv
          | none => true
        | _ => true)
    | _ => true
  else if k = "required" then
    match spec with
    | .arr reqs =>
      reqs.all (fun r =>
        match r, v with
        | .str name, .obj fields => (lookupKvs fields name).isSome
        | _, _ => true)
    | _ => true
  else true

/-- Modelled from the spec: the acceptance relation of the external
JSON-Schema engine (Ajv), which the specification treats as an out-of-scope
black box, on the keyword fragment the nullable decoration touches
(`oneOf`, `type`, `properties`, `required`).  The fuel bounds recursion
depth; on any schema whose nesting is below the fuel the ordinary
semantics is computed, and the depth-shifted statements below never rely
on exhaustion.  A non-object schema constrains nothing. -/
def accSimple : Nat → Json → Json → Bool
  | 0, _, _ => false
  | Nat.succ n, .obj kvs, v => kvs.all (fun kv => accKeywordF (accSimple n) kv.1 kv.2 v)
  | Nat.succ _, _, _ => true

/-- Two key paths diverge when, after a common prefix, their next keys
differ: neither location is inside the other. -/
def Diverges (ks ls : List String) : Prop :=
  ∃ pre k1 t1 k2 t2, ks = pre ++ k1 :: t1 ∧ ls = pre ++ k2 :: t2 ∧ k1 ≠ k2

/-
Concrete fixtures used by the witness theorems: a one-path contract with a
GET entry, its compiled registry, requests hitting it, option sets with and
without callbacks, and simple instantiations of the external collaborators.
-/

def exSchema : Json := Json.obj [("type", Json.str "object")]

def exRespSchema : Json :=
  Json.obj [("type", Json.str "object"),
    ("properties", Json.obj [("name", Json.obj [("type", Json.str "string")])])]

def exDescr : Json := Json.obj [("schema", exRespSchema)]

def exResponses : Json := Json.obj [("200", exDescr)]

def exGetEntry : Json :=
  Json.obj [("parameters", Json.arr [Json.obj [("schema", exSchema)]]),
    ("responses", exResponses)]

def exPathDef : Json := Json.obj [("get", exGetEntry)]

def exDoc : Json := Json.obj [("paths", Json.obj [("/items/\x7bid\x7d", exPathDef)])]

def exReg : List PathObject := [⟨"/items/\x7bid\x7d", fun u => u == "/items/1"⟩]

def exReq : Request := ⟨"GET", "/items/1", JsVal.jval (Json.obj [("name", Json.num 42)])⟩

def exOptsNoCb : Options := ⟨true, true, true, false, false⟩

def exOptsCb : Options := ⟨true, true, true, true, true⟩

def exExtRejectAll : Ext :=
  ⟨fun _ _ => false, fun _ _ => [Json.str "err"], fun _ => none, fun _ => "x"⟩

def exGetEntry2 : Json := Json.obj [("parameters", Json.arr [])]

def exPathDef2 : Json :=
  Json.obj [("get", exGetEntry2),
    ("post", Json.obj [("parameters", Json.arr [Json.obj [("schema", exSchema)]])])]

def exDoc2 : Json := Json.obj [("paths", Json.obj [("/a", exPathDef2)])]

def exReg2 : List PathObject := [⟨"/a", fun u => u == "/a"⟩]

def exReq2 : Request := ⟨"GET", "/a", JsVal.undefV⟩

def exPropSchema : Json :=
  Json.obj [("type", Json.str "string"), ("x-nullable", Json.bool true)]

def exNullableSchema : Json :=
  Json.obj [("properties", Json.obj [("x", exPropSchema)])]

def exRes : ResState := ⟨200⟩

def exExtRespInvalid : Ext :=
  ⟨fun _ _ => false, fun _ _ => [Json.str "err"],
    fun s => if s == "\x7b\x7d" then some (Json.obj []) else none,
    fun _ => "\x7b\x7d"⟩

def exPathDefPostOnly : Json :=
  Json.obj [("post", Json.obj [("responses", Json.obj [("200", exDescr)])])]

def exDoc3 : Json := Json.obj [("paths", Json.obj [("/b", exPathDefPostOnly)])]

def exReg3 : List PathObject := [⟨"/b", fun u => u == "/b"⟩]

def exReq3 : Request := ⟨"GET", "/b", JsVal.undefV⟩

def exDescrN : Json := Json.obj [("schema", exNullableSchema)]

def exGetEntryN : Json := Json.obj [("responses", Json.obj [("200", exDescrN)])]

def exPathDefN : Json := Json.obj [("get", exGetEntryN)]

def exDocN : Json := Json.obj [("paths", Json.obj [("/n", exPathDefN)])]

def exRegN : List PathObject := [⟨"/n", fun u => u == "/n"⟩]

def exReqN : Request := ⟨"GET", "/n", JsVal.undefV⟩

section Lemmas

theorem lookupKvs_setKeyFirst_self (l : List (String × Json)) (k : String) (w : Json)
    (h : (lookupKvs l k).isSome) : lookupKvs (setKeyFirst l k w) k = some w := by
  induction l with
  | nil => simp [lookupKvs] at h
  | cons kv rest ih =>
    obtain ⟨k0, v0⟩ := kv
    by_cases hk : k0 = k
    · subst hk
      simp [setKeyFirst, lookupKvs]
    · simp [setKeyFirst, lookupKvs, hk] at h ⊢
      exact ih h

theorem lookupKvs_setKeyFirst_ne (l : List (String × Json)) (k : String) (w : Json)
    (k2 : String) (h : k2 ≠ k) : lookupKvs (setKeyFirst l k w) k2 = lookupKvs l k2 := by
  induction l with
  | nil => rfl
  | cons kv rest ih =>
    obtain ⟨k0, v0⟩ := kv
    by_cases hk : k0 = k
    · subst hk
      simp [setKeyFirst, lookupKvs, Ne.symm h]
    · simp [setKeyFirst, lookupKvs, hk]
      by_cases hk2 : k0 = k2
      · simp [hk2]
      · simp [hk2, ih]

theorem setKeyFirst_setKeyFirst (l : List (String × Json)) (k : String) (a b : Json) :
    setKeyFirst (setKeyFirst l k a) k b = setKeyFirst l k b := by
  induction l with
  | nil => rfl
  | cons kv rest ih =>
    obtain ⟨k0, v0⟩ := kv
    by_cases hk : k0 = k
    · subst hk
      simp [setKeyFirst]
    · simp [setKeyFirst, hk, ih]

theorem setKeyFirst_same (l : List (String × Json)) (k : String) (v : Json)
    (h : lookupKvs l k = some v) : setKeyFirst l k v = l := by
  induction l with
  | nil => rfl
  | cons kv rest ih =>
    obtain ⟨k0, v0⟩ := kv
    by_cases hk : k0 = k
    · subst hk
      simp [lookupKvs] at h
      simp [setKeyFirst, h]
    · simp [lookupKvs, hk] at h
      simp [setKeyFirst, hk, ih h]

theorem xNullableTruthy_nullableWrap (v : Json) : xNullableTruthy (nullableWrap v) = false := by
  simp [xNullableTruthy, nullableWrap, lookupKvs]

theorem decProps_decProps (props : List (String × Json)) :
    decProps (decProps props) = decProps props := by
  induction props with
  | nil => rfl
  | cons kv rest ih =>
    obtain ⟨k0, v0⟩ := kv
    by_cases h : xNullableTruthy v0
    · simp [decProps, h, xNullableTruthy_nullableWrap, ih]
    · simp [decProps, h, ih]

theorem decorateWithNullable_idem (s : Json) :
    decorateWithNullable (decorateWithNullable s) = decorateWithNullable s := by
  cases s with
  | obj kvs =>
    cases h : lookupKvs kvs "properties" with
    | none => simp [decorateWithNullable, h]
    | some p =>
      cases p with
      | obj props =>
        have h2 : lookupKvs (setKeyFirst kvs "properties" (Json.obj (decProps props)))
            "properties" = some (Json.obj (decProps props)) :=
          lookupKvs_setKeyFirst_self _ _ _ (by simp [h])
        simp [decorateWithNullable, h, h2, decProps_decProps, setKeyFirst_setKeyFirst]
      | null => simp [decorateWithNullable, h]
      | bool b => simp [decorateWithNullable, h]
      | num n => simp [decorateWithNullable, h]
      | str t => simp [decorateWithNullable, h]
      | arr l => simp [decorateWithNullable, h]
  | null => rfl
  | bool b => rfl
  | num n => rfl
  | str t => rfl
  | arr l => rfl

theorem jsMember_updAt (j v : Json) (k : String) (ks : List String) (f : Json → Json)
    (h : jsMember j k = some v) :
    jsMember (updAt j (k :: ks) f) k = some (updAt v ks f) := by
  cases j with
  | obj kvs =>
    simp only [jsMember] at h
    simp only [updAt, h, jsMember]
    exact lookupKvs_setKeyFirst_self _ _ _ (by simp [h])
  | null => simp [jsMember] at h
  | bool b => simp [jsMember] at h
  | num n => simp [jsMember] at h
  | str t => simp [jsMember] at h
  | arr l => simp [jsMember] at h

theorem isObj_updAt_cons (j v : Json) (k : String) (ks : List String) (f : Json → Json)
    (h : jsMember j k = some v) : (updAt j (k :: ks) f).isObj = true := by
  cases j with
  | obj kvs =>
    simp only [jsMember] at h
    simp [updAt, h, Json.isObj]
  | null => simp [jsMember] at h
  | bool b => simp [jsMember] at h
  | num n => simp [jsMember] at h
  | str t => simp [jsMember] at h
  | arr l => simp [jsMember] at h

theorem truthy_of_isObj (j : Json) (h : j.isObj = true) : truthy j = true := by
  cases j <;> simp_all [Json.isObj, truthy]

theorem isNull_of_isObj (j : Json) (h : j.isObj = true) : j.isNull = false := by
  cases j <;> simp_all [Json.isObj, Json.isNull]

theorem getAt_updAt_self (ks : List String) : ∀ (j v : Json) (f : Json → Json),
    getAt j ks = some v → getAt (updAt j ks f) ks = some (f v) := by
  induction ks with
  | nil =>
    intro j v f h
    simp [getAt] at h
    subst h
    simp [getAt, updAt]
  | cons k rest ih =>
    intro j v f h
    cases hm : jsMember j k with
    | none => simp [getAt, hm] at h
    | some w =>
      simp only [getAt, hm] at h
      simp only [getAt, jsMember_updAt j w k rest f hm]
      exact ih w v f h

theorem updAt_self (ks : List String) : ∀ (j v : Json),
    getAt j ks = some v → updAt j ks (fun _ => v) = j := by
  induction ks with
  | nil =>
    intro j v h
    simp [getAt] at h
    subst h
    simp [updAt]
  | cons k rest ih =>
    intro j v h
    cases hm : jsMember j k with
    | none => simp [getAt, hm] at h
    | some w =>
      simp only [getAt, hm] at h
      cases j with
      | obj kvs =>
        simp only [jsMember] at hm
        simp [updAt, hm, ih w v h, setKeyFirst_same kvs k w hm]
      | null => simp [jsMember] at hm
      | bool b => simp [jsMember] at hm
      | num n => simp [jsMember] at hm
      | str t => simp [jsMember] at hm
      | arr l => simp [jsMember] at hm

theorem getAt_updAt_diverge (pre : List String) :
    ∀ (j : Json) (k1 k2 : String) (t1 t2 : List String) (f : Json → Json), k1 ≠ k2 →
    getAt (updAt j (pre ++ k1 :: t1) f) (pre ++ k2 :: t2) = getAt j (pre ++ k2 :: t2) := by
  induction pre with
  | nil =>
    intro j k1 k2 t1 t2 f hne
    cases j with
    | obj kvs =>
      cases hl : lookupKvs kvs k1 with
      | none => simp [updAt, hl]
      | some w =>
        simp only [List.nil_append, updAt, hl, getAt, jsMember]
        rw [lookupKvs_setKeyFirst_ne kvs k1 (updAt w t1 f) k2 (Ne.symm hne)]
    | null => rfl
    | bool b => rfl
    | num n => rfl
    | str t => rfl
    | arr l => rfl
  | cons k pre ih =>
    intro j k1 k2 t1 t2 f hne
    cases j with
    | obj kvs =>
      cases hl : lookupKvs kvs k with
      | none => simp [updAt, hl]
      | some w =>
        simp only [List.cons_append, updAt, hl, getAt, jsMember]
        rw [lookupKvs_setKeyFirst_self kvs k _ (by simp [hl])]
        exact ih w k1 k2 t1 t2 f hne
    | null => rfl
    | bool b => rfl
    | num n => rfl
    | str t => rfl
    | arr l => rfl

theorem getAt_updAt_diverges (j : Json) (loc qs : List String) (f : Json → Json)
    (h : Diverges qs loc) : getAt (updAt j loc f) qs = getAt j qs := by
  obtain ⟨pre, k1, t1, k2, t2, hq, hl, hne⟩ := h
  subst hq
  subst hl
  exact getAt_updAt_diverge pre j k2 k1 t2 t1 f (Ne.symm hne)

theorem getAt_append (ks1 : List String) : ∀ (j : Json) (ks2 : List String),
    getAt j (ks1 ++ ks2)
      = (match getAt j ks1 with
         | some v => getAt v ks2
         | none => none) := by
  induction ks1 with
  | nil =>
    intro j ks2
    simp [getAt]
  | cons k rest ih =>
    intro j ks2
    cases hm : jsMember j k with
    | none => simp [getAt, hm]
    | some w => simp [getAt, hm, ih w ks2]

theorem getAt_updAt_along (ks1 : List String) :
    ∀ (ks2 : List String) (j v : Json) (f : Json → Json),
    getAt j ks1 = some v →
    getAt (updAt j (ks1 ++ ks2) f) ks1 = some (updAt v ks2 f) := by
  induction ks1 with
  | nil =>
    intro ks2 j v f h
    simp [getAt] at h
    subst h
    simp [getAt]
  | cons k rest ih =>
    intro ks2 j v f h
    cases hm : jsMember j k with
    | none => simp [getAt, hm] at h
    | some w =>
      simp only [getAt, hm] at h
      have e := jsMember_updAt j w k (rest ++ ks2) f hm
      simp only [List.cons_append, getAt, e]
      exact ih ks2 w v f h

theorem resolveSt_statusOr200 (opts : Options) (reg : List PathObject) (doc : Json)
    (req : Request) (r1 r2 : ResState) (h : statusOr200 r1 = statusOr200 r2) :
    resolveResponseModelSchemaSt opts reg doc req r1
      = resolveResponseModelSchemaSt opts reg doc req r2 := by
  unfold resolveResponseModelSchemaSt
  rw [h]

theorem concatBuffers_map_buf (ss : List String) :
    concatBuffers (ss.map JsVal.buf) = .ok (joinStr ss) := by
  induction ss with
  | nil => rfl
  | cons s rest ih => simp [concatBuffers, bufContents, joinStr, ih]

theorem matchUrlPath_eq_find (reg : List PathObject) (url : String) :
    matchUrlPath reg url
      = (reg.find? (fun o => o.matcher (pathname url))).map (fun o => o.path) := by
  induction reg with
  | nil => rfl
  | cons o rest ih =>
    by_cases h : o.matcher (pathname url)
    · simp [matchUrlPath, List.filter, List.find?, h]
    · simp only [matchUrlPath, List.filter, List.find?] at ih ⊢
      simp [h, ih]

theorem takeWhile_of_all {p : Char → Bool} (l : List Char) (h : ∀ c ∈ l, p c = true) :
    l.takeWhile p = l := by
  induction l with
  | nil => rfl
  | cons c rest ih =>
    have hc := h c (by simp)
    simp [List.takeWhile, hc, ih (fun c2 hc2 => h c2 (List.mem_cons_of_mem _ hc2))]

theorem takeWhile_append_of_all {p : Char → Bool} (l r : List Char)
    (h : ∀ c ∈ l, p c = true) : (l ++ r).takeWhile p = l ++ r.takeWhile p := by
  induction l with
  | nil => rfl
  | cons c rest ih =>
    have hc := h c (by simp)
    simp [List.takeWhile, hc, ih (fun c2 hc2 => h c2 (List.mem_cons_of_mem _ hc2))]

theorem string_data_append (a b : String) : (a ++ b).data = a.data ++ b.data := by
  cases a
  cases b
  rfl

theorem pathname_of_clean (s : String) (h : ∀ c ∈ s.data, c ≠ '?' ∧ c ≠ '#') :
    pathname s = s := by
  unfold pathname
  rw [takeWhile_of_all s.data (fun c hc => by
    obtain ⟨h1, h2⟩ := h c hc
    simp [h1, h2])]

theorem pathname_strip (pre q : String) (stop : Char)
    (hstop : (!(stop = '?' || stop = '#')) = false)
    (h : ∀ c ∈ pre.data, c ≠ '?' ∧ c ≠ '#') :
    pathname (pre ++ String.mk (stop :: q.data)) = pathname pre := by
  unfold pathname
  rw [string_data_append]
  rw [takeWhile_append_of_all pre.data _ (fun c hc => by
    obtain ⟨h1, h2⟩ := h c hc
    simp [h1, h2])]
  rw [takeWhile_of_all pre.data (fun c hc => by
    obtain ⟨h1, h2⟩ := h c hc
    simp [h1, h2])]
  simp [List.takeWhile, hstop]

theorem string_append_assoc (a b c : String) : a ++ b ++ c = a ++ (b ++ c) := by
  cases a with
  | mk x =>
    cases b with
    | mk y =>
      cases c with
      | mk z =>
        show String.mk (x ++ y ++ z) = String.mk (x ++ (y ++ z))
        rw [List.append_assoc]

theorem matchUrl_congr (reg : List PathObject) (doc : Json) (u1 u2 : String)
    (h : pathname u1 = pathname u2) :
    matchUrlWithSchema reg doc u1 = matchUrlWithSchema reg doc u2 := by
  unfold matchUrlWithSchema matchUrlPath
  rw [h]

theorem applyNullable_none (opts : Options) : applyNullable opts none = none := by
  simp [applyNullable]

theorem lookupKvs_decProps (props : List (String × Json)) (p : String) (sp : Json)
    (h : lookupKvs props p = some sp) :
    lookupKvs (decProps props) p
      = some (if xNullableTruthy sp then nullableWrap sp else sp) := by
  induction props with
  | nil => simp [lookupKvs] at h
  | cons kv rest ih =>
    obtain ⟨k0, v0⟩ := kv
    by_cases hk : k0 = p
    · subst hk
      simp [lookupKvs] at h
      subst h
      simp [decProps, lookupKvs]
    · simp [lookupKvs, hk] at h
      simp [decProps, lookupKvs, hk, ih h]

end Lemmas

/-- C1: when the parsed body violates the resolved request schema and no
request error-handling callback is configured, the request validation stage
responds with HTTP 400 and a JSON body whose `message` field names the
method and URL, and never invokes the downstream continuation. -/
theorem claim_c1_request_rejection (ext : Ext) (opts : Options) (reg : List PathObject)
    (doc : Json) (req : Request) (s : Json)
    (hres : resolveRequestModelSchema opts reg doc req = some s)
    (htr : truthy s = true)
    (hval : ext.validate s req.body = false)
    (hcb : opts.requestValidationFn = false) :
    validateRequest ext opts reg doc req
      = ⟨false, false, some 400,
          some (Json.obj [("message",
            Json.str ("Response schema validation failed for "
              ++ req.method ++ req.originalUrl))])⟩ := by
  simp [validateRequest, hres, htr, hval, hcb, validationErrBody]

theorem claim_c1_request_rejection_witness :
    validateRequest exExtRejectAll exOptsNoCb exReg exDoc exReq
      = ⟨false, false, some 400,
          some (Json.obj [("message",
            Json.str "Response schema validation failed for GET/items/1")])⟩ :=
  claim_c1_request_rejection exExtRejectAll exOptsNoCb exReg exDoc exReq exSchema
    rfl rfl rfl rfl

/-- C3: path resolution strips query string and fragment from the URL and
returns the definition of the first registry entry, in registration order,
whose compiled matcher accepts the path component; with no accepting
matcher it returns none.  Earlier-registered entries win regardless of
specificity, which the find-first characterization expresses. -/
theorem claim_c3_path_resolution (reg : List PathObject) (doc : Json)
    (url pre q frag : String) :
    matchUrlWithSchema reg doc url
        = (reg.find? (fun o => o.matcher (pathname url))).bind
            (fun o => getAt doc ["paths", o.path])
      ∧ ((∀ o ∈ reg, o.matcher (pathname url) = false) →
          matchUrlWithSchema reg doc url = none)
      ∧ ((∀ c ∈ pre.data, c ≠ '?' ∧ c ≠ '#') →
          matchUrlWithSchema reg doc (pre ++ "?" ++ q) = matchUrlWithSchema reg doc pre
          ∧ matchUrlWithSchema reg doc (pre ++ "#" ++ frag)
              = matchUrlWithSchema reg doc pre) := by
  refine ⟨?_, ?_, ?_⟩
  · unfold matchUrlWithSchema
    rw [matchUrlPath_eq_find]
    cases reg.find? (fun o => o.matcher (pathname url)) <;> simp
  · intro h
    unfold matchUrlWithSchema
    rw [matchUrlPath_eq_find]
    rw [List.find?_eq_none.mpr (by intro o ho; simp [h o ho])]
    simp
  · intro h
    constructor
    · apply matchUrl_congr
      rw [string_append_assoc]
      have hq : ("?" ++ q : String) = String.mk ('?' :: q.data) := by
        cases q with
        | mk d => rfl
      rw [hq, pathname_strip pre q '?' (by decide) h, pathname_of_clean pre h]
    · apply matchUrl_congr
      rw [string_append_assoc]
      have hf : ("#" ++ frag : String) = String.mk ('#' :: frag.data) := by
        cases frag with
        | mk d => rfl
      rw [hf, pathname_strip pre frag '#' (by decide) h, pathname_of_clean pre h]

theorem claim_c3_path_resolution_witness :
    matchUrlWithSchema exReg exDoc ("/items/1" ++ "?" ++ "x=1")
        = matchUrlWithSchema exReg exDoc "/items/1"
      ∧ matchUrlWithSchema exReg exDoc ("/items/1" ++ "#" ++ "f")
        = matchUrlWithSchema exReg exDoc "/items/1" :=
  (claim_c3_path_resolution exReg exDoc "/items/1" "/items/1" "x=1" "f").2.2 (by decide)

/-- C4: the request-schema resolver returns the first declared parameter's
schema (after the nullable decoration step) when the matched method entry
declares at least one parameter, and none when no path entry matches, when
the method entry is absent (or falsy), or when the method declares zero
parameters; nothing but the matched method's own entry is consulted, so
parameters of other methods on the same path cannot contribute. -/
theorem claim_c4_request_schema (opts : Options) (reg : List PathObject) (doc : Json)
    (req : Request) :
    (matchUrlWithSchema reg doc req.originalUrl = none →
      resolveRequestModelSchema opts reg doc req = none)
    ∧ (∀ pathObj, matchUrlWithSchema reg doc req.originalUrl = some pathObj →
        truthy pathObj = true →
        (jsMember pathObj (toLowerStr req.method) = none →
          resolveRequestModelSchema opts reg doc req = none)
        ∧ (∀ m, jsMember pathObj (toLowerStr req.method) = some m → truthy m = true →
            (jsMember m "parameters" = none →
              resolveRequestModelSchema opts reg doc req = none)
            ∧ (jsMember m "parameters" = some (Json.arr []) →
              resolveRequestModelSchema opts reg doc req = none)
            ∧ (∀ p ps, jsMember m "parameters" = some (Json.arr (p :: ps)) →
                resolveRequestModelSchema opts reg doc req
                  = applyNullable opts (jsMember p "schema")))) := by
  refine ⟨?_, ?_⟩
  · intro h
    simp [resolveRequestModelSchema, h, applyNullable_none]
  · intro pathObj hm htr
    refine ⟨?_, ?_⟩
    · intro hnone
      simp [resolveRequestModelSchema, hm, htr, hnone, applyNullable_none]
    · intro m hmm htm
      refine ⟨?_, ?_, ?_⟩
      · intro hp
        simp [resolveRequestModelSchema, hm, htr, hmm, htm, hp, applyNullable_none]
      · intro hp
        simp [resolveRequestModelSchema, hm, htr, hmm, htm, hp, applyNullable_none]
      · intro p ps hp
        simp [resolveRequestModelSchema, hm, htr, hmm, htm, hp]

theorem claim_c4_request_schema_witness :
    resolveRequestModelSchema exOptsNoCb exReg2 exDoc2 exReq2 = none :=
  (((claim_c4_request_schema exOptsNoCb exReg2 exDoc2 exReq2).2 exPathDef2 rfl rfl).2
    exGetEntry2 rfl rfl).2.1 rfl

/-- C7: the nullable decoration is idempotent, structurally and hence on
accepted value sets for any acceptance relation; a top-level property with
a truthy nullable marker is rewritten to a disjunction of its original
schema and the explicit null type, which (in the modelled engine
semantics) accepts the property's original values and the explicit null,
and rejects values satisfying neither. -/
theorem claim_c7_nullable_decoration :
    (∀ s : Json, decorateWithNullable (decorateWithNullable s) = decorateWithNullable s)
    ∧ (∀ (A : Json → Json → Bool) (s v : Json),
        A (decorateWithNullable (decorateWithNullable s)) v = A (decorateWithNullable s) v)
    ∧ (∀ (s : Json) (p : String) (sp : Json),
        getAt s ["properties", p] = some sp → xNullableTruthy sp = true →
        getAt (decorateWithNullable s) ["properties", p] = some (nullableWrap sp))
    ∧ (∀ (n : Nat) (sp : Json),
        (accSimple (n + 1) sp Json.null = false →
          accSimple (n + 2) (nullableWrap sp) Json.null = true)
        ∧ (∀ v : Json, accSimple (n + 1) sp v = true → v.isNull = false →
            accSimple (n + 2) (nullableWrap sp) v = true)
        ∧ (∀ w : Json, accSimple (n + 1) sp w = false → w.isNull = false →
            accSimple (n + 2) (nullableWrap sp) w = false)) := by
  refine ⟨decorateWithNullable_idem, ?_, ?_, ?_⟩
  · intro A s v
    rw [decorateWithNullable_idem]
  · intro s p sp hget hx
    cases s with
    | obj kvs =>
      simp only [getAt, jsMember] at hget
      cases hprops : lookupKvs kvs "properties" with
      | none => simp [hprops] at hget
      | some pv =>
        simp only [hprops] at hget
        cases pv with
        | obj props =>
          simp only [getAt, jsMember] at hget
          cases hsp : lookupKvs props p with
          | none => simp [hsp] at hget
          | some sp2 =>
            simp only [hsp, getAt] at hget
            injection hget with hEq
            subst hEq
            simp only [decorateWithNullable, hprops, getAt, jsMember,
              lookupKvs_setKeyFirst_self kvs "properties" _ (by simp [hprops]),
              lookupKvs_decProps props p sp2 hsp]
            simp [hx]
        | null => simp [getAt, jsMember] at hget
        | bool b => simp [getAt, jsMember] at hget
        | num i => simp [getAt, jsMember] at hget
        | str t => simp [getAt, jsMember] at hget
        | arr l => simp [getAt, jsMember] at hget
    | null => simp [getAt, jsMember] at hget
    | bool b => simp [getAt, jsMember] at hget
    | num i => simp [getAt, jsMember] at hget
    | str t => simp [getAt, jsMember] at hget
    | arr l => simp [getAt, jsMember] at hget
  · intro n sp
    refine ⟨?_, ?_, ?_⟩
    · intro h
      simp [accSimple, nullableWrap, accKeywordF, List.countP_cons, List.countP_nil,
        h, typeMatches, Json.isNull]
    · intro v hv hn
      simp [accSimple, nullableWrap, accKeywordF, List.countP_cons, List.countP_nil,
        hv, typeMatches, hn]
    · intro w hw hn
      simp [accSimple, nullableWrap, accKeywordF, List.countP_cons, List.countP_nil,
        hw, typeMatches, hn]

theorem claim_c7_nullable_decoration_witness :
    getAt (decorateWithNullable exNullableSchema) ["properties", "x"]
        = some (nullableWrap exPropSchema)
      ∧ accSimple 2 (nullableWrap exPropSchema) Json.null = true
      ∧ accSimple 2 (nullableWrap exPropSchema) (Json.str "a") = true
      ∧ accSimple 2 (nullableWrap exPropSchema) (Json.num 3) = false :=
  ⟨claim_c7_nullable_decoration.2.2.1 exNullableSchema "x" exPropSchema rfl rfl,
    (claim_c7_nullable_decoration.2.2.2 0 exPropSchema).1 rfl,
    (claim_c7_nullable_decoration.2.2.2 0 exPropSchema).2.1 (Json.str "a") rfl rfl,
    (claim_c7_nullable_decoration.2.2.2 0 exPropSchema).2.2 (Json.num 3) rfl rfl⟩

/-- C10: with both stages enabled (their default), the middleware entry
installs the response interception hooks for every request and invokes the
continuation from the response stage unconditionally, so a request that
passes (or skips) request validation sees the continuation twice, and a
request already rejected with a 400 still gets the hooks installed and the
continuation invoked once more. -/
theorem claim_c10_both_stages (ext : Ext) (opts : Options) (reg : List PathObject)
    (doc : Json) (req : Request)
    (hreq : opts.validateRequest = true) (hresp : opts.validateResponse = true) :
    (validate ext opts reg doc req).hooksInstalled = true
    ∧ (validate ext opts reg doc req).reqEffects
        = some (validateRequest ext opts reg doc req)
    ∧ ((validateRequest ext opts reg doc req).nextCalled = true →
        (validate ext opts reg doc req).nextCount = 2)
    ∧ ((validateRequest ext opts reg doc req).nextCalled = false →
        (validate ext opts reg doc req).nextCount = 1) := by
  refine ⟨by simp [validate, hresp], by simp [validate, hreq], ?_, ?_⟩
  · intro h
    simp [validate, hreq, hresp, h]
  · intro h
    simp [validate, hreq, hresp, h]

theorem claim_c10_both_stages_witness :
    (validate exExtRejectAll exOptsNoCb exReg exDoc exReq).hooksInstalled = true
      ∧ (validate exExtRejectAll exOptsNoCb exReg exDoc exReq).nextCount = 1 :=
  ⟨(claim_c10_both_stages exExtRejectAll exOptsNoCb exReg exDoc exReq rfl rfl).1,
    (claim_c10_both_stages exExtRejectAll exOptsNoCb exReg exDoc exReq rfl rfl).2.2.2 rfl⟩

/-- C2: when the decoded response body violates the resolved response
schema and no response callback is configured, the end hook never emits the
captured payload and instead hands the chain's error continuation an error
naming the method and URL; with a callback configured, the callback
receives the parsed value and the error list and the payload is then sent
normally (re-serialized through JSON.stringify). -/
theorem claim_c2_response_failure (ext : Ext) (opts : Options) (reg : List PathObject)
    (doc : Json) (req : Request) (res : ResState) (writtenData : List JsVal)
    (data : JsVal) (enc s : String) (j sch : Json)
    (hval : reassembled writtenData data = .ok (JsVal.str s))
    (hparse : ext.parse s = some j)
    (hsch : resolveResponseModelSchema opts reg doc req res = .ok (some sch))
    (htr : truthy sch = true)
    (hinvalid : ext.validate sch (JsVal.jval j) = false) :
    (opts.responseValidationFn = false →
      resEnd ext opts reg doc req res writtenData data enc
        = [.restoreHooks, .nextErr (responseErrMsg req)])
    ∧ (opts.responseValidationFn = true →
      resEnd ext opts reg doc req res writtenData data enc
        = [.restoreHooks,
            .callback (JsVal.jval j) (ext.errors sch (JsVal.jval j)),
            .sendData (JsVal.str (ext.stringify j))]) := by
  constructor <;> intro hcb <;>
    simp [resEnd, hval, hparse, afterDecode, hsch, htr, hinvalid, hcb, sendDataVal]

theorem claim_c2_response_failure_witness :
    resEnd exExtRespInvalid exOptsNoCb exReg exDoc exReq exRes
        [JsVal.buf "\x7b\x7d"] JsVal.undefV "utf8"
      = [.restoreHooks, .nextErr (responseErrMsg exReq)] :=
  (claim_c2_response_failure exExtRespInvalid exOptsNoCb exReg exDoc exReq exRes
    [JsVal.buf "\x7b\x7d"] JsVal.undefV "utf8" "\x7b\x7d" (Json.obj []) exRespSchema
    rfl rfl rfl rfl rfl).1 rfl

/-- C5 counterexample: the value validated by the end hook is NOT always
the concatenation of the captured chunks plus the finalize data.  With a
captured Buffer chunk and a primitive-string finalize argument, the code
path of src/index.js:160-161 keeps the string alone and drops the chunk;
and when assembly itself throws (a captured chunk that is not a Buffer
meets Buffer.concat), the hook raises before ever restoring the original
write/end, so restoration is not its first action. -/
theorem claim_c5_counterexample :
    (reassembled [JsVal.buf "a"] (JsVal.str "b") = .ok (JsVal.str "b")
      ∧ JsVal.str "b" ≠ JsVal.str ("a" ++ "b"))
    ∧ resEnd exExtRespInvalid exOptsNoCb exReg exDoc exReq exRes
        [JsVal.str "x"] (JsVal.buf "b") "utf8"
        = [.raised false "TypeError: list argument must be an Array of Buffers"] := by
  refine ⟨⟨rfl, ?_⟩, rfl⟩
  intro h
  injection h with h2
  exact absurd h2 (by decide)

/-- C5 amended: once the value is assembled without throwing, the end hook
restores the original write/end before any decoding, resolution,
validation or emission; and the value it decodes and validates is the
concatenation of the captured chunks plus the finalize data when that data
is a Buffer or a boxed String, the captured chunks alone when the finalize
data is falsy, and the finalize data ALONE — the captured chunks are
discarded — when the data is any other truthy value, such as a primitive
string or an already-built object. -/
theorem claim_c5_reassembly (ext : Ext) (opts : Options) (reg : List PathObject)
    (doc : Json) (req : Request) (res : ResState) (writtenData : List JsVal)
    (data v : JsVal) (enc : String) (ss : List String) (b s : String) (j : Json) :
    (reassembled writtenData data = .ok v →
      (resEnd ext opts reg doc req res writtenData data enc).head?
        = some .restoreHooks)
    ∧ reassembled (ss.map JsVal.buf) (JsVal.buf b) = .ok (JsVal.str (joinStr (ss ++ [b])))
    ∧ reassembled (ss.map JsVal.buf) (JsVal.strObj b)
        = .ok (JsVal.str (joinStr (ss ++ [b])))
    ∧ (s ≠ "" → reassembled writtenData (JsVal.str s) = .ok (JsVal.str s))
    ∧ (truthy j = true → reassembled writtenData (JsVal.jval j) = .ok (JsVal.jval j))
    ∧ (truthyV data = false → ss ≠ [] →
        reassembled (ss.map JsVal.buf) data = .ok (JsVal.str (joinStr ss)))
    ∧ (truthyV data = false → reassembled [] data = .ok JsVal.undefV) := by
  have hconcat : concatBuffers (ss.map JsVal.buf ++ [JsVal.buf b])
      = .ok (joinStr (ss ++ [b])) := by
    have hmap : ss.map JsVal.buf ++ [JsVal.buf b] = (ss ++ [b]).map JsVal.buf := by
      simp
    rw [hmap, concatBuffers_map_buf]
  refine ⟨?_, ?_, ?_, ?_, ?_, ?_, ?_⟩
  · intro h
    simp [resEnd, h]
  · simp [reassembled, computeVal, truthyV, hconcat, Except.map]
  · simp [reassembled, computeVal, truthyV, hconcat, Except.map]
  · intro h
    simp [reassembled, computeVal, truthyV, h, Except.map]
  · intro h
    simp [reassembled, computeVal, truthyV, h, Except.map]
  · intro h hne
    cases ss with
    | nil => exact absurd rfl hne
    | cons hd tl =>
      have hc2 : concatBuffers (JsVal.buf hd :: List.map JsVal.buf tl)
          = .ok (joinStr (hd :: tl)) := concatBuffers_map_buf (hd :: tl)
      simp [reassembled, computeVal, h, hc2, Except.map]
  · intro h
    simp [reassembled, computeVal, h, List.isEmpty, Except.map]

theorem claim_c5_reassembly_witness :
    (resEnd exExtRespInvalid exOptsNoCb exReg exDoc exReq exRes
        [JsVal.buf "\x7b"] (JsVal.buf "\x7d") "utf8").head? = some REvent.restoreHooks :=
  (claim_c5_reassembly exExtRespInvalid exOptsNoCb exReg exDoc exReq exRes
    [JsVal.buf "\x7b"] (JsVal.buf "\x7d") (JsVal.str "\x7b\x7d") "utf8" ["\x7b"] "\x7d" "x"
    Json.null).1 rfl

/-- C6: a reassembled response body that is not valid JSON makes the end
hook raise a decode fault carrying the `failedValidation` marker (after
restoring the hooks), while a schema-validation failure never raises: its
trace contains no raised event at all. -/
theorem claim_c6_decode_fault (ext : Ext) (opts : Options) (reg : List PathObject)
    (doc : Json) (req : Request) (res : ResState) (writtenData : List JsVal)
    (data : JsVal) (enc s : String) (sch : Json)
    (hval : reassembled writtenData data = .ok (JsVal.str s))
    (hsch : resolveResponseModelSchema opts reg doc req res = .ok (some sch)) :
    (ext.parse s = none →
      resEnd ext opts reg doc req res writtenData data enc
        = [.restoreHooks, .raised true decodeFaultMsg])
    ∧ (∀ j : Json, ext.parse s = some j → truthy sch = true →
        ext.validate sch (JsVal.jval j) = false →
        ∀ (bm : Bool) (msg : String),
          REvent.raised bm msg ∉ resEnd ext opts reg doc req res writtenData data enc) := by
  constructor
  · intro h
    simp [resEnd, hval, h]
  · intro j hj htr hinv bm msg
    cases hcb : opts.responseValidationFn <;>
      simp [resEnd, hval, hj, afterDecode, hsch, htr, hinv, hcb]

theorem claim_c6_decode_fault_witness :
    resEnd exExtRespInvalid exOptsNoCb exReg exDoc exReq exRes
        [] (JsVal.buf "oops") "utf8"
      = [.restoreHooks, .raised true decodeFaultMsg] :=
  (claim_c6_decode_fault exExtRespInvalid exOptsNoCb exReg exDoc exReq exRes
    [] (JsVal.buf "oops") "utf8" "oops" exRespSchema rfl rfl).1 rfl

/-- C8 counterexample: resolveResponseModelSchema does NOT return none for
every absent method entry.  On a contract whose matched path declares only
`post`, a GET request makes the unguarded read
`pathObj[method].responses` (src/index.js:51) throw a TypeError instead of
yielding none. -/
theorem claim_c8_counterexample :
    resolveResponseModelSchema exOptsNoCb exReg3 exDoc3 exReq3 exRes
        = .error "TypeError: Cannot read property responses of undefined"
      ∧ ∀ s : Option Json,
          resolveResponseModelSchema exOptsNoCb exReg3 exDoc3 exReq3 exRes ≠ .ok s := by
  refine ⟨rfl, ?_⟩
  intro s h
  have e : resolveResponseModelSchema exOptsNoCb exReg3 exDoc3 exReq3 exRes
      = .error "TypeError: Cannot read property responses of undefined" := rfl
  rw [e] at h
  exact Except.noConfusion h

/-- C8 amended: the response-schema resolver keys the response descriptor
by the exact status code (defaulting to 200 when the response has none
set) and returns none when no path entry matches or when the descriptor
for that code is absent; but when the path matches and the method entry is
absent, resolution throws a TypeError instead of returning none. -/
theorem claim_c8_response_schema (opts : Options) (reg : List PathObject) (doc : Json)
    (req : Request) (res : ResState) :
    (matchUrlPath reg req.originalUrl = none →
      resolveResponseModelSchema opts reg doc req res = .ok none)
    ∧ (∀ p pathObj, matchUrlPath reg req.originalUrl = some p →
        getAt doc ["paths", p] = some pathObj → truthy pathObj = true →
        (jsMember pathObj (toLowerStr req.method) = none →
          ∃ e, resolveResponseModelSchema opts reg doc req res = .error e)
        ∧ (∀ m rs, jsMember pathObj (toLowerStr req.method) = some m →
            m.isNull = false → jsMember m "responses" = some rs → rs.isNull = false →
            (jsMember rs (Nat.repr (statusOr200 res)) = none →
              resolveResponseModelSchema opts reg doc req res = .ok none)
            ∧ (∀ d sch, jsMember rs (Nat.repr (statusOr200 res)) = some d →
                truthy d = true → jsMember d "schema" = some sch →
                resolveResponseModelSchema opts reg doc req res
                  = .ok (some (if opts.allowNullable then decorateWithNullable sch
                      else sch)))))
    ∧ resolveResponseModelSchema opts reg doc req ⟨0⟩
        = resolveResponseModelSchema opts reg doc req ⟨200⟩ := by
  refine ⟨?_, ?_, ?_⟩
  · intro hm
    simp [resolveResponseModelSchema, resolveResponseModelSchemaSt, hm,
      applyNullable_none, Except.map]
  · intro p pathObj hm hget htr
    refine ⟨?_, ?_⟩
    · intro hno
      exact ⟨"TypeError: Cannot read property responses of undefined",
        by simp [resolveResponseModelSchema, resolveResponseModelSchemaSt, hm, hget,
          htr, hno, Except.map]⟩
    · intro m rs hmem hmn hrs hrsn
      refine ⟨?_, ?_⟩
      · intro hd
        simp [resolveResponseModelSchema, resolveResponseModelSchemaSt, hm, hget, htr,
          hmem, hmn, hrs, hrsn, hd, applyNullable_none, Except.map]
      · intro d sch hd htd hs
        cases hflag : opts.allowNullable <;>
          simp [resolveResponseModelSchema, resolveResponseModelSchemaSt, hm, hget,
            htr, hmem, hmn, hrs, hrsn, hd, htd, hs, hflag, Except.map]
  · simp [resolveResponseModelSchema,
      resolveSt_statusOr200 opts reg doc req ⟨0⟩ ⟨200⟩ rfl]

theorem claim_c8_response_schema_witness :
    resolveResponseModelSchema exOptsNoCb exReg exDoc exReq exRes
      = .ok (some (decorateWithNullable exRespSchema)) :=
  ((((claim_c8_response_schema exOptsNoCb exReg exDoc exReq exRes).2.1 "/items/\x7bid\x7d"
      exPathDef rfl rfl rfl).2 exGetEntry exResponses rfl rfl rfl rfl).2 exDescr
      exRespSchema rfl rfl rfl)

/-- Inversion of a successful state-passing resolution: either the
document came back unchanged, or the nullable decoration fired, in which
case the whole read chain down to the schema is recorded and the new
document is exactly the decoration written back at that location. -/
theorem resolveSt_shape (opts : Options) (reg : List PathObject) (doc : Json)
    (req : Request) (res : ResState) (s : Option Json) (doc2 : Json)
    (h : resolveResponseModelSchemaSt opts reg doc req res = .ok (s, doc2)) :
    doc2 = doc
    ∨ (opts.allowNullable = true ∧ ∃ p pathObj m rs d sch,
        matchUrlPath reg req.originalUrl = some p
        ∧ getAt doc ["paths", p] = some pathObj
        ∧ truthy pathObj = true
        ∧ jsMember pathObj (toLowerStr req.method) = some m
        ∧ m.isNull = false
        ∧ jsMember m "responses" = some rs
        ∧ rs.isNull = false
        ∧ jsMember rs (Nat.repr (statusOr200 res)) = some d
        ∧ truthy d = true
        ∧ jsMember d "schema" = some sch
        ∧ s = some (decorateWithNullable sch)
        ∧ doc2 = updAt doc ["paths", p, toLowerStr req.method, "responses",
            Nat.repr (statusOr200 res), "schema"] (fun _ => decorateWithNullable sch)) := by
  unfold resolveResponseModelSchemaSt at h
  split at h
  · simp only [Except.ok.injEq, Prod.mk.injEq] at h
    exact Or.inl h.2.symm
  · rename_i p hm
    split at h
    · simp only [Except.ok.injEq, Prod.mk.injEq] at h
      exact Or.inl h.2.symm
    · rename_i pathObj hget
      split at h
      · simp only [Except.ok.injEq, Prod.mk.injEq] at h
        exact Or.inl h.2.symm
      · rename_i htr
        split at h
        · exact absurd h (by simp)
        · rename_i m hmem
          split at h
          · exact absurd h (by simp)
          · rename_i hmn
            split at h
            · exact absurd h (by simp)
            · rename_i rs hrs
              split at h
              · exact absurd h (by simp)
              · rename_i hrsn
                split at h
                · simp only [Except.ok.injEq, Prod.mk.injEq] at h
                  exact Or.inl h.2.symm
                · rename_i d hd
                  split at h
                  · simp only [Except.ok.injEq, Prod.mk.injEq] at h
                    exact Or.inl h.2.symm
                  · rename_i htd
                    split at h
                    · simp only [Except.ok.injEq, Prod.mk.injEq] at h
                      exact Or.inl h.2.symm
                    · rename_i sch hs
                      split at h
                      · rename_i hnul
                        simp only [Except.ok.injEq, Prod.mk.injEq] at h
                        refine Or.inr ⟨hnul, p, pathObj, m, rs, d, sch, hm, hget,
                          ?_, hmem, ?_, hrs, ?_, hd, ?_, hs, h.1.symm, h.2.symm⟩
                        · simpa using htr
                        · simpa using hmn
                        · simpa using hrsn
                        · simpa using htd
                      · simp only [Except.ok.injEq, Prod.mk.injEq] at h
                        exact Or.inl h.2.symm

/-- C9: schema resolution leaves the contract document untouched except
for the nullable decoration: with allowNullable disabled the document
never changes; every successful resolution either returns the document
unchanged or rewrites exactly the resolved schema location with its
decorated form, leaving every diverging location unchanged; and the
rewrite happens only the first time — resolving again in the updated
document returns the same schema and the same document (the path registry
is a separate read-only input and is never produced by resolution). -/
theorem claim_c9_mutation_frame (opts : Options) (reg : List PathObject) (doc : Json)
    (req : Request) (res : ResState) :
    (opts.allowNullable = false →
      ∀ s doc2, resolveResponseModelSchemaSt opts reg doc req res = .ok (s, doc2) →
        doc2 = doc)
    ∧ (∀ s doc2, resolveResponseModelSchemaSt opts reg doc req res = .ok (s, doc2) →
        resolveResponseModelSchemaSt opts reg doc2 req res = .ok (s, doc2))
    ∧ (∀ s doc2, resolveResponseModelSchemaSt opts reg doc req res = .ok (s, doc2) →
        doc2 = doc
        ∨ ∃ p sch,
            matchUrlPath reg req.originalUrl = some p
            ∧ getAt doc ["paths", p, toLowerStr req.method, "responses",
                Nat.repr (statusOr200 res), "schema"] = some sch
            ∧ s = some (decorateWithNullable sch)
            ∧ doc2 = updAt doc ["paths", p, toLowerStr req.method, "responses",
                Nat.repr (statusOr200 res), "schema"] (fun _ => decorateWithNullable sch)
            ∧ ∀ qs, Diverges qs ["paths", p, toLowerStr req.method, "responses",
                Nat.repr (statusOr200 res), "schema"] →
                getAt doc2 qs = getAt doc qs) := by
  refine ⟨?_, ?_, ?_⟩
  · intro hflag s doc2 h
    rcases resolveSt_shape opts reg doc req res s doc2 h with he | ⟨hnul, _⟩
    · exact he
    · rw [hflag] at hnul
      exact absurd hnul (by simp)
  · intro s doc2 h
    rcases resolveSt_shape opts reg doc req res s doc2 h with he | hright
    · subst he
      exact h
    · obtain ⟨hnul, p, pathObj, m, rs, d, sch, hm, hget, htr, hmem, hmn, hrs, hrsn,
        hd, htd, hs, hsval, hdoc2⟩ := hright
      have hloc : getAt doc ["paths", p, toLowerStr req.method, "responses",
          Nat.repr (statusOr200 res), "schema"] = some sch := by
        have e := getAt_append ["paths", p] doc
          [toLowerStr req.method, "responses", Nat.repr (statusOr200 res), "schema"]
        rw [show ("paths" :: p :: [toLowerStr req.method, "responses",
            Nat.repr (statusOr200 res), "schema"])
          = ["paths", p] ++ [toLowerStr req.method, "responses",
            Nat.repr (statusOr200 res), "schema"] from rfl, e, hget]
        simp [getAt, hmem, hrs, hd, hs]
      have hE1 : getAt doc2 ["paths", p]
          = some (updAt pathObj [toLowerStr req.method, "responses",
              Nat.repr (statusOr200 res), "schema"] (fun _ => decorateWithNullable sch)) := by
        rw [hdoc2]
        exact getAt_updAt_along ["paths", p] _ doc pathObj _ hget
      have hE2 : truthy (updAt pathObj [toLowerStr req.method, "responses",
          Nat.repr (statusOr200 res), "schema"] (fun _ => decorateWithNullable sch))
          = true :=
        truthy_of_isObj _ (isObj_updAt_cons pathObj m _ _ _ hmem)
      have hE3 := jsMember_updAt pathObj m (toLowerStr req.method)
        ["responses", Nat.repr (statusOr200 res), "schema"]
        (fun _ => decorateWithNullable sch) hmem
      have hE4 : (updAt m ["responses", Nat.repr (statusOr200 res), "schema"]
          (fun _ => decorateWithNullable sch)).isNull = false :=
        isNull_of_isObj _ (isObj_updAt_cons m rs _ _ _ hrs)
      have hE5 := jsMember_updAt m rs "responses"
        [Nat.repr (statusOr200 res), "schema"] (fun _ => decorateWithNullable sch) hrs
      have hE6 : (updAt rs [Nat.repr (statusOr200 res), "schema"]
          (fun _ => decorateWithNullable sch)).isNull = false :=
        isNull_of_isObj _ (isObj_updAt_cons rs d _ _ _ hd)
      have hE7 := jsMember_updAt rs d (Nat.repr (statusOr200 res)) ["schema"]
        (fun _ => decorateWithNullable sch) hd
      have hE8 : truthy (updAt d ["schema"] (fun _ => decorateWithNullable sch))
          = true :=
        truthy_of_isObj _ (isObj_updAt_cons d sch _ _ _ hs)
      have hE9 : jsMember (updAt d ["schema"] (fun _ => decorateWithNullable sch))
          "schema" = some (decorateWithNullable sch) := by
        have e := jsMember_updAt d sch "schema" [] (fun _ => decorateWithNullable sch) hs
        simpa [updAt] using e
      have hE11 : getAt doc2 ["paths", p, toLowerStr req.method, "responses",
          Nat.repr (statusOr200 res), "schema"] = some (decorateWithNullable sch) := by
        rw [hdoc2]
        exact getAt_updAt_self _ doc sch _ hloc
      subst hsval
      subst hdoc2
      unfold resolveResponseModelSchemaSt
      rw [hm]
      simp only [hE1, hE2, hE3, hE4, hE5, hE6, hE7, hE8, hE9, hnul,
        decorateWithNullable_idem]
      rw [updAt_self _ _ (decorateWithNullable sch) hE11]
      simp
  · intro s doc2 h
    rcases resolveSt_shape opts reg doc req res s doc2 h with he | hright
    · exact Or.inl he
    · obtain ⟨hnul, p, pathObj, m, rs, d, sch, hm, hget, htr, hmem, hmn, hrs, hrsn,
        hd, htd, hs, hsval, hdoc2⟩ := hright
      have hloc : getAt doc ["paths", p, toLowerStr req.method, "responses",
          Nat.repr (statusOr200 res), "schema"] = some sch := by
        have e := getAt_append ["paths", p] doc
          [toLowerStr req.method, "responses", Nat.repr (statusOr200 res), "schema"]
        rw [show ("paths" :: p :: [toLowerStr req.method, "responses",
            Nat.repr (statusOr200 res), "schema"])
          = ["paths", p] ++ [toLowerStr req.method, "responses",
            Nat.repr (statusOr200 res), "schema"] from rfl, e, hget]
        simp [getAt, hmem, hrs, hd, hs]
      refine Or.inr ⟨p, sch, hm, hloc, hsval, hdoc2, ?_⟩
      intro qs hdiv
      rw [hdoc2]
      exact getAt_updAt_diverges doc _ qs _ hdiv

theorem claim_c9_mutation_frame_witness :
    resolveResponseModelSchemaSt exOptsNoCb exRegN
        (updAt exDocN ["paths", "/n", "get", "responses", "200", "schema"]
          (fun _ => decorateWithNullable exNullableSchema)) exReqN exRes
      = .ok (some (decorateWithNullable exNullableSchema),
          updAt exDocN ["paths", "/n", "get", "responses", "200", "schema"]
            (fun _ => decorateWithNullable exNullableSchema)) :=
  (claim_c9_mutation_frame exOptsNoCb exRegN exDocN exReqN exRes).2.1
    (some (decorateWithNullable exNullableSchema))
    (updAt exDocN ["paths", "/n", "get", "responses", "200", "schema"]
      (fun _ => decorateWithNullable exNullableSchema)) rfl

end SwaggerValidator
